import Mathlib

/-!
Shallow embedding of the price-tracking core of `src/skrybing.py`
(class `SteamMarketMonitor`).

The durable state consists of two SQLite tables created in `init_db`:

* `price_history (item_name, price, timestamp, price_change, UNIQUE(item_name, timestamp))`,
  written with `INSERT OR IGNORE`;
* `last_prices (item_name PRIMARY KEY, last_price, last_update)`,
  written with `INSERT OR REPLACE`.

Tables are modelled as Lean lists of rows; `INSERT OR IGNORE` inserts only
when no row with the same `(item_name, timestamp)` key exists, and
`INSERT OR REPLACE` removes the conflicting rows and appends the new one,
exactly as SQLite resolves the respective conflict clauses.

Python `float` prices are modelled as rationals (ℚ); the claims under
study are arithmetic identities that the source computes with single
subtractions on small decimals, so no rounding behaviour is relevant.
Timestamps (the `current_time` strings) are modelled as an opaque key
type, here ℕ; the code only ever compares them for equality (the dedup
key) and overwrites `last_update`.

`check_price_changes` iterates over the configured items with a single
`current_time`; for each item it fetches a price (skipping `None`),
reads the previous price from `last_prices`, computes
`price_change = price - previous_price` when a previous price exists
(`None` otherwise), inserts the history row and replaces the last-price
row.  The per-item body after a successful fetch is `recordObservation`
below, returning the new store together with the computed
`price_change`; the loop over items is `runCycle`.
-/

/-- A row of the `price_history` table: `(item_name, price, timestamp, price_change)`. -/
structure HistoryRow where
  item : String
  price : ℚ
  timestamp : ℕ
  priceChange : Option ℚ
deriving DecidableEq

/-- A row of the `last_prices` table: `(item_name, last_price, last_update)`. -/
structure LastPriceRow where
  item : String
  lastPrice : ℚ
  lastUpdate : ℕ
deriving DecidableEq

/-- The durable state owned by the monitor: both tables. -/
structure Store where
  priceHistory : List HistoryRow
  lastPrices : List LastPriceRow
deriving DecidableEq

/-- The `UNIQUE(item_name, timestamp)` key predicate of `price_history`. -/
def keyMatches (i : String) (t : ℕ) (r : HistoryRow) : Bool :=
  r.item == i && r.timestamp == t

/-- Number of `price_history` rows with dedup key `(i, t)`. -/
def histKeyCount (h : List HistoryRow) (i : String) (t : ℕ) : ℕ :=
  (h.filter (keyMatches i t)).length

/-- Semantics of `INSERT OR IGNORE INTO price_history`: the row is appended
only when no existing row has the same `(item_name, timestamp)` key. -/
def insertOrIgnoreHistory (h : List HistoryRow) (row : HistoryRow) : List HistoryRow :=
  if histKeyCount h row.item row.timestamp = 0 then h ++ [row] else h

/-- Semantics of `INSERT OR REPLACE INTO last_prices`: rows conflicting on the
primary key `item_name` are removed and the new row is inserted. -/
def insertOrReplaceLast (lp : List LastPriceRow) (i : String) (p : ℚ) (t : ℕ) :
    List LastPriceRow :=
  lp.filter (fun r => !(r.item == i)) ++ [⟨i, p, t⟩]

/-- The `SELECT last_price FROM last_prices WHERE item_name = ?` lookup
(`fetchone` returns the first matching row). -/
def lastRowFor (s : Store) (i : String) : Option LastPriceRow :=
  s.lastPrices.find? (fun r => r.item == i)

/-- The `(last_price, last_update)` pair currently stored for an item, if any. -/
def lastFor (s : Store) (i : String) : Option (ℚ × ℕ) :=
  (lastRowFor s i).map (fun r => (r.lastPrice, r.lastUpdate))

/-- All `price_history` rows of one item. -/
def historyFor (s : Store) (i : String) : List HistoryRow :=
  s.priceHistory.filter (fun r => r.item == i)

/-- Number of `price_history` rows of one item. -/
def histItemCount (s : Store) (i : String) : ℕ :=
  (historyFor s i).length

/-- Number of `last_prices` rows of one item. -/
def lastItemCount (s : Store) (i : String) : ℕ :=
  (s.lastPrices.filter (fun r => r.item == i)).length

/-- The per-item body of `check_price_changes` once a price has been fetched
(lines 91-124 of `src/skrybing.py`): read `previous_price` from
`last_prices`, set `price_change = price - previous_price` when a previous
price exists (`None` otherwise), `INSERT OR IGNORE` the history row carrying
`price_change`, then `INSERT OR REPLACE` the last-price row.  Returns the new
store and the computed `price_change` (the change information the code
reports for this observation). -/
def recordObservation (s : Store) (item : String) (price : ℚ) (t : ℕ) :
    Store × Option ℚ :=
  let previous : Option ℚ := (lastRowFor s item).map (fun r => r.lastPrice)
  let priceChange : Option ℚ := previous.map (fun pp => price - pp)
  let hist := insertOrIgnoreHistory s.priceHistory ⟨item, price, t, priceChange⟩
  let lps := insertOrReplaceLast s.lastPrices item price t
  (⟨hist, lps⟩, priceChange)

/-- One pass of `check_price_changes` over the item list, with one shared
`current_time` `t` (computed once per cycle in the source) and the fetcher
abstracted as a function: items whose fetch returns `none` are skipped
(`continue`), the rest are recorded in order. -/
def runCycle (s : Store) (items : List String) (fetch : String → Option ℚ) (t : ℕ) :
    Store :=
  match items with
  | [] => s
  | i :: rest =>
    match fetch i with
    | none => runCycle s rest fetch t
    | some p => runCycle (recordObservation s i p t).1 rest fetch t

/-- The marketplace response consumed by `get_steam_market_price`:
`success` is the boolean flag of the JSON body; `lowestPrice` is `none`
when the `lowest_price` field is absent, `some none` when the field is
present but `float(...)` raises on it (a non-numeric string), and
`some (some v)` when it parses to the numeric value `v` (which the code
never sign-checks). -/
structure PriceResponse where
  success : Bool
  lowestPrice : Option (Option ℚ)
deriving DecidableEq

/-- The result classification of `get_steam_market_price` (lines 64-79):
returns the parsed price when `success` is set and `lowest_price` is present
and parses — whatever its sign — and `None` otherwise (any exception is
caught and turned into `None`). -/
def get_steam_market_price (r : PriceResponse) : Option ℚ :=
  if r.success then
    match r.lowestPrice with
    | some (some v) => some v
    | some none => none
    | none => none
  else none

/-- One pass of `check_price_changes` in which the durable write for an item
may fail.  `writeFails i = true` models a storage error (disk full, lock
contention, corruption) raised while persisting item `i`.  In the source no
handler exists between the SQLite calls and the top level — `run` catches
only `KeyboardInterrupt` — so the exception propagates, the remaining items
are never processed, and the failing item's uncommitted writes are rolled
back when the connection dies (the `commit()` for that item never ran).
Returns the store as committed so far, paired with `true` when the cycle was
aborted by such an error. -/
def runCycleFallible (s : Store) (items : List String) (fetch : String → Option ℚ)
    (writeFails : String → Bool) (t : ℕ) : Store × Bool :=
  match items with
  | [] => (s, false)
  | i :: rest =>
    match fetch i with
    | none => runCycleFallible s rest fetch writeFails t
    | some p =>
      if writeFails i then (s, true)
      else runCycleFallible (recordObservation s i p t).1 rest fetch writeFails t

/-- Specification-side formula, for comparison with the code: the spec's
`deltaPercent == (next - prev) / prev * 100`, explicitly marked undefined
(`none`) when `prev = 0`.  The source computes no percentage anywhere. -/
def specDeltaPercent (prev next : ℚ) : Option ℚ :=
  if prev = 0 then none else some ((next - prev) / prev * 100)

/-- The invariant of claim C9: every item that has a `last_prices` row has at
least one `price_history` row. -/
def lastPriceCovered (s : Store) : Prop :=
  ∀ r ∈ s.lastPrices, ∃ hr ∈ s.priceHistory, hr.item = r.item

instance : DecidablePred lastPriceCovered := fun s => by
  unfold lastPriceCovered; infer_instance

/-- The empty store (fresh database). -/
def store0 : Store := ⟨[], []⟩

/-- A store in which item `A` was last seen at price 10 (timestamp 0), with a
matching history row. -/
def storeA10 : Store := ⟨[⟨"A", 10, 0, none⟩], [⟨"A", 10, 0⟩]⟩

/-- A store in which item `A` was last seen at price 1. -/
def storeA1 : Store := ⟨[⟨"A", 1, 0, none⟩], [⟨"A", 1, 0⟩]⟩

/-- A store in which item `A` was last seen at price 2. -/
def storeA2 : Store := ⟨[⟨"A", 2, 0, none⟩], [⟨"A", 2, 0⟩]⟩

/-- A fetcher for which item `A` is unavailable and every other item fetches
at price 5. -/
def fetchNoneA : String → Option ℚ := fun i => if i == "A" then none else some 5

/-- A marketplace response carrying a parseable negative price string
(for example `lowest_price = "$-5.00"`). -/
def respNeg : PriceResponse := ⟨true, some (some (-5))⟩

/-- A marketplace response whose `lowest_price` field does not parse as a
number (`float(...)` raises). -/
def respBad : PriceResponse := ⟨true, some none⟩

/-- A fetcher returning price 1 for every item. -/
def fetchOne : String → Option ℚ := fun _ => some 1

/-- A write-failure oracle under which persisting item `A` fails. -/
def failsA : String → Bool := fun i => i == "A"

/-! ## Helper lemmas -/

/-- After `recordObservation`, the `last_prices` lookup for the recorded item
returns the freshly written row. -/
theorem lastFor_record_self (s : Store) (i : String) (p : ℚ) (t : ℕ) :
    lastFor (recordObservation s i p t).1 i = some (p, t) := by
  unfold lastFor lastRowFor recordObservation insertOrReplaceLast
  rw [List.find?_append]
  have hnone : (s.lastPrices.filter (fun r => !(r.item == i))).find?
      (fun r => r.item == i) = none := by
    rw [List.find?_eq_none]
    intro x hx
    have := List.of_mem_filter hx
    simp at this ⊢
    exact this
  rw [hnone]
  simp [List.find?]

/-- Filtering by a predicate implied by the search predicate does not change
the result of `find?`. -/
theorem find?_filter_of_imp {α : Type} (p q : α → Bool)
    (himp : ∀ x, p x = true → q x = true) :
    ∀ l : List α, (l.filter q).find? p = l.find? p := by
  intro l
  induction l with
  | nil => rfl
  | cons a l ih =>
    by_cases hq : q a
    · by_cases hp : p a
      · simp [List.filter_cons, hq, List.find?_cons_of_pos _ hp, hp]
      · simp only [List.filter_cons, hq, if_true]
        rw [List.find?_cons_of_neg _ hp, List.find?_cons_of_neg _ hp, ih]
    · have hq2 : q a = false := by simpa using hq
      have hp : ¬ p a = true := fun hpa => hq (himp a hpa)
      simp only [List.filter_cons, hq2, Bool.false_eq_true, if_false]
      rw [ih, List.find?_cons_of_neg _ hp]

/-- Recording an observation for item `j` leaves the `last_prices` lookup of
any other item untouched. -/
theorem lastFor_record_other (s : Store) (i j : String) (p : ℚ) (t : ℕ) (hne : j ≠ i) :
    lastFor (recordObservation s j p t).1 i = lastFor s i := by
  unfold lastFor lastRowFor recordObservation insertOrReplaceLast
  rw [List.find?_append]
  have hji : (j == i) = false := beq_eq_false_iff_ne.mpr hne
  have h2 : ([(⟨j, p, t⟩ : LastPriceRow)]).find? (fun r => r.item == i) = none := by
    simp [List.find?, hji]
  rw [h2]
  have h3 := find?_filter_of_imp (fun (r : LastPriceRow) => r.item == i)
    (fun (r : LastPriceRow) => !(r.item == j))
    (by
      intro x hx
      simp only [beq_iff_eq] at hx
      simp only [Bool.not_eq_eq_eq_not, Bool.not_true, beq_eq_false_iff_ne]
      rw [hx]
      exact hne.symm)
    s.lastPrices
  rw [h3]
  cases s.lastPrices.find? (fun r => r.item == i) <;> rfl

/-- Recording an observation for item `j` leaves the history rows of any
other item untouched. -/
theorem historyFor_record_other (s : Store) (i j : String) (p : ℚ) (t : ℕ) (hne : j ≠ i) :
    historyFor (recordObservation s j p t).1 i = historyFor s i := by
  unfold historyFor recordObservation insertOrIgnoreHistory
  by_cases h : histKeyCount s.priceHistory j t = 0
  · simp only [h, if_true]
    rw [List.filter_append]
    have : (j == i) = false := beq_eq_false_iff_ne.mpr hne
    simp [this]
  · simp [h]

/-- A history row matches its own dedup key. -/
theorem keyMatches_self (i : String) (t : ℕ) (p : ℚ) (c : Option ℚ) :
    keyMatches i t ⟨i, p, t, c⟩ = true := by
  simp [keyMatches]

/-- Key counts add up across list append. -/
theorem histKeyCount_append (h1 h2 : List HistoryRow) (i : String) (t : ℕ) :
    histKeyCount (h1 ++ h2) i t = histKeyCount h1 i t + histKeyCount h2 i t := by
  unfold histKeyCount
  rw [List.filter_append, List.length_append]

/-- An item whose fetch is unavailable keeps its `last_prices` row and all its
history rows across a whole cycle. -/
theorem runCycle_frame (items : List String) (s : Store) (fetch : String → Option ℚ)
    (t : ℕ) (i : String) (h : fetch i = none) :
    lastFor (runCycle s items fetch t) i = lastFor s i ∧
    historyFor (runCycle s items fetch t) i = historyFor s i := by
  induction items generalizing s with
  | nil => exact ⟨rfl, rfl⟩
  | cons j rest ih =>
    cases hf : fetch j with
    | none => simpa [runCycle, hf] using ih s
    | some p =>
      have hne : j ≠ i := by
        intro e
        rw [e, h] at hf
        cases hf
      have ih2 := ih (recordObservation s j p t).1
      simp only [runCycle, hf]
      exact ⟨ih2.1.trans (lastFor_record_other s i j p t hne),
             ih2.2.trans (historyFor_record_other s i j p t hne)⟩

/-- The covering invariant (every `last_prices` item has a history row) is
preserved by a single `recordObservation`. -/
theorem record_preserves_covered (s : Store) (i : String) (p : ℚ) (t : ℕ)
    (h : lastPriceCovered s) : lastPriceCovered (recordObservation s i p t).1 := by
  unfold lastPriceCovered recordObservation insertOrReplaceLast at *
  intro r hr
  simp only at hr
  rw [List.mem_append] at hr
  rcases hr with hr | hr
  · -- r was already present (and is not item i)
    have hmem := List.mem_of_mem_filter hr
    obtain ⟨hr2, hhr2, hitem⟩ := h r hmem
    refine ⟨hr2, ?_, hitem⟩
    unfold insertOrIgnoreHistory
    by_cases hk : histKeyCount s.priceHistory i t = 0
    · simp only [hk, if_true]
      exact List.mem_append_left _ hhr2
    · simpa [hk] using hhr2
  · -- r is the freshly inserted last-price row for item i
    rw [List.mem_singleton] at hr
    subst hr
    unfold insertOrIgnoreHistory
    by_cases hk : histKeyCount s.priceHistory i t = 0
    · simp only [hk, if_true]
      exact ⟨⟨i, p, t, _⟩, List.mem_append_right _ (List.mem_singleton_self _), rfl⟩
    · -- a history row with key (i, t) already exists
      have hne : s.priceHistory.filter (keyMatches i t) ≠ [] := by
        intro hnil
        exact hk (by simp [histKeyCount, hnil])
      obtain ⟨hr2, hhr2⟩ := List.exists_mem_of_ne_nil _ hne
      have hmem := List.mem_of_mem_filter hhr2
      have hkey := List.of_mem_filter hhr2
      unfold keyMatches at hkey
      simp only [Bool.and_eq_true, beq_iff_eq] at hkey
      simp only [hk, if_false]
      exact ⟨hr2, hmem, hkey.1⟩

/-- The covering invariant is preserved by a whole cycle. -/
theorem runCycle_preserves_covered (items : List String) (s : Store)
    (fetch : String → Option ℚ) (t : ℕ) (h : lastPriceCovered s) :
    lastPriceCovered (runCycle s items fetch t) := by
  induction items generalizing s with
  | nil => exact h
  | cons j rest ih =>
    cases hf : fetch j with
    | none => simpa [runCycle, hf] using ih s h
    | some p =>
      simp only [runCycle, hf]
      exact ih _ (record_preserves_covered s j p t h)

/-- Unfolding equation for the store component of `recordObservation`. -/
theorem recordObservation_fst (s : Store) (i : String) (p : ℚ) (t : ℕ) :
    (recordObservation s i p t).1 =
      ⟨insertOrIgnoreHistory s.priceHistory
          ⟨i, p, t, ((lastRowFor s i).map (fun r => r.lastPrice)).map (fun pp => p - pp)⟩,
        insertOrReplaceLast s.lastPrices i p t⟩ := rfl

/-- Unfolding equation for the reported `price_change` of `recordObservation`. -/
theorem recordObservation_snd (s : Store) (i : String) (p : ℚ) (t : ℕ) :
    (recordObservation s i p t).2 =
      ((lastRowFor s i).map (fun r => r.lastPrice)).map (fun pp => p - pp) := rfl

/-- When a row with the same dedup key already exists, `INSERT OR IGNORE`
leaves the history unchanged. -/
theorem insertOrIgnore_of_existing (h0 : List HistoryRow) (row : HistoryRow)
    (h : histKeyCount h0 row.item row.timestamp ≠ 0) :
    insertOrIgnoreHistory h0 row = h0 := by
  unfold insertOrIgnoreHistory
  simp [h]

/-- Inserting a history row at an absent dedup key makes its key count one. -/
theorem histKeyCount_insert_self (h0 : List HistoryRow) (i : String) (t : ℕ) (p : ℚ)
    (c : Option ℚ) (h : histKeyCount h0 i t = 0) :
    histKeyCount (insertOrIgnoreHistory h0 ⟨i, p, t, c⟩) i t = 1 := by
  unfold insertOrIgnoreHistory
  simp only [h, if_true]
  rw [histKeyCount_append, h]
  simp [histKeyCount, keyMatches]

/-! ## Claim theorems -/

/-- Claim C1, counterexample: the claim states that when the stored LastPrice
equals the newly observed price the per-item step reports no PriceChange
(returns `None`).  In the source, `price_change = price - previous_price` is
computed whenever a previous price exists, with no equality test, so with
LastPrice 10 for item `A` an observation of the same price 10 reports
`Some (10 - 10)`, not `None`. -/
theorem C1_counterexample : (recordObservation storeA10 "A" 10 1).2 ≠ none := by
  rw [recordObservation_snd]
  simp [storeA10, lastRowFor, List.find?]

/-- Claim C1, amended: for every item with an existing LastPrice whose price
equals the newly observed price, the per-item step reports a zero change
(`some 0`) rather than `None` — it never reports a nonzero change — and it
still refreshes LastPrice's timestamp.  Since the resulting LastPrice again
holds the same price, every repetition with that price also reports
`some 0`. -/
theorem C1_equal_price_reports_zero (s : Store) (i : String) (p : ℚ) (t0 t1 : ℕ)
    (h : lastFor s i = some (p, t0)) :
    (recordObservation s i p t1).2 = some 0 ∧
    lastFor (recordObservation s i p t1).1 i = some (p, t1) := by
  refine ⟨?_, lastFor_record_self s i p t1⟩
  rw [recordObservation_snd]
  unfold lastFor at h
  cases hr : lastRowFor s i with
  | none => rw [hr] at h; cases h
  | some r =>
    rw [hr] at h
    simp only [Option.map_some', Option.some_inj, Prod.mk.injEq] at h
    simp only [hr, Option.map_some', Option.some_inj]
    rw [h.1]
    exact sub_self p

/-- Claim C1, witness: the amended theorem applied to a store holding
LastPrice 10 for item `A` and a repeated observation of price 10. -/
theorem C1_witness :
    lastFor storeA10 "A" = some (10, 0) ∧
    ((recordObservation storeA10 "A" 10 1).2 = some 0 ∧
      lastFor (recordObservation storeA10 "A" 10 1).1 "A" = some (10, 1)) :=
  ⟨rfl, C1_equal_price_reports_zero storeA10 "A" 10 0 1 rfl⟩

/-- Claim C2, counterexample: the claim states that the reported PriceChange
carries `deltaPercent == (next - prev) / prev * 100`.  The source computes no
percentage at all: the reported change is only the bare difference, so two
observations with the same delta but different previous prices (1 → 3 and
2 → 4) produce identical reports (`some 2`), although the spec formula gives
200 versus 100 percent.  Hence no reading of the code's report can yield the
spec's deltaPercent. -/
theorem C2_counterexample :
    ¬ ∃ pct : Option ℚ → Option ℚ,
        pct (recordObservation storeA1 "A" 3 1).2 = specDeltaPercent 1 3 ∧
        pct (recordObservation storeA2 "A" 4 1).2 = specDeltaPercent 2 4 := by
  rintro ⟨f, h1, h2⟩
  have e1 : (recordObservation storeA1 "A" 3 1).2 = some 2 := by
    rw [recordObservation_snd]
    simp [storeA1, lastRowFor, List.find?]
    norm_num
  have e2 : (recordObservation storeA2 "A" 4 1).2 = some 2 := by
    rw [recordObservation_snd]
    simp [storeA2, lastRowFor, List.find?]
    norm_num
  rw [e1] at h1
  rw [e2] at h2
  rw [h1] at h2
  norm_num [specDeltaPercent] at h2

/-- Claim C2, amended: for every pair `(prev, next)` with `prev ≠ next`, when
an observation of `next` is recorded for an item whose LastPrice is `prev`,
the reported change is exactly `some (next - prev)` — the delta equation of
the claim holds, but no deltaPercent is computed or reported anywhere (in
particular no division by `prev` occurs, so `prev = 0` cannot raise). -/
theorem C2_delta_only (s : Store) (i : String) (prev next : ℚ) (t0 t1 : ℕ)
    (h : lastFor s i = some (prev, t0)) (hne : prev ≠ next) :
    (recordObservation s i next t1).2 = some (next - prev) := by
  rw [recordObservation_snd]
  unfold lastFor at h
  cases hr : lastRowFor s i with
  | none => rw [hr] at h; cases h
  | some r =>
    rw [hr] at h
    simp only [Option.map_some', Option.some_inj, Prod.mk.injEq] at h
    simp only [hr, Option.map_some', Option.some_inj]
    rw [h.1]

/-- Claim C2, witness: the amended theorem applied to LastPrice 10 and a new
observation of 12 for item `A`. -/
theorem C2_witness :
    lastFor storeA10 "A" = some (10, 0) ∧ (10 : ℚ) ≠ 12 ∧
    (recordObservation storeA10 "A" 12 1).2 = some (12 - 10) :=
  ⟨rfl, by decide, C2_delta_only storeA10 "A" 10 12 0 1 rfl (by decide)⟩

/-- Claim C3: recording an observation twice with the same `(item, timestamp)`
key, starting from a store without that key, produces exactly one history row
for that key — the second insert is ignored by the `UNIQUE(item_name,
timestamp)` constraint regardless of whether the two prices differ. -/
theorem C3_dedup_single_row (s : Store) (i : String) (p1 p2 : ℚ) (t : ℕ)
    (h : histKeyCount s.priceHistory i t = 0) :
    histKeyCount
      ((recordObservation (recordObservation s i p1 t).1 i p2 t).1).priceHistory i t = 1 := by
  rw [recordObservation_fst, recordObservation_fst]
  simp only
  have c1 : histKeyCount
      (insertOrIgnoreHistory s.priceHistory
        ⟨i, p1, t, ((lastRowFor s i).map (fun r => r.lastPrice)).map (fun pp => p1 - pp)⟩)
      i t = 1 :=
    histKeyCount_insert_self _ _ _ _ _ h
  rw [insertOrIgnore_of_existing]
  · exact c1
  · simp only
    rw [c1]
    exact one_ne_zero

/-- Claim C3, witness: the dedup theorem applied to the empty store with two
different prices (1 then 2) at the same timestamp. -/
theorem C3_witness :
    histKeyCount store0.priceHistory "A" 0 = 0 ∧
    histKeyCount
      ((recordObservation (recordObservation store0 "A" 1 0).1 "A" 2 0).1).priceHistory
      "A" 0 = 1 :=
  ⟨rfl, C3_dedup_single_row store0 "A" 1 2 0 rfl⟩

/-- Claim C4: for an item never observed before (no `last_prices` row, no
history rows), recording an observation reports no change (`none`) and
creates exactly one `last_prices` row and exactly one history row for that
item. -/
theorem C4_first_observation (s : Store) (i : String) (p : ℚ) (t : ℕ)
    (h1 : lastRowFor s i = none) (h2 : histItemCount s i = 0) :
    (recordObservation s i p t).2 = none ∧
    lastItemCount (recordObservation s i p t).1 i = 1 ∧
    histItemCount (recordObservation s i p t).1 i = 1 := by
  have hnorow : ∀ a ∈ s.priceHistory, ¬ (a.item == i) = true := by
    unfold histItemCount historyFor at h2
    rw [List.length_eq_zero, List.filter_eq_nil_iff] at h2
    exact h2
  refine ⟨?_, ?_, ?_⟩
  · rw [recordObservation_snd, h1]
    rfl
  · rw [recordObservation_fst]
    unfold lastItemCount insertOrReplaceLast
    simp only
    rw [List.filter_append, List.length_append]
    have hnil : (s.lastPrices.filter (fun r => !(r.item == i))).filter
        (fun r => r.item == i) = [] := by
      rw [List.filter_eq_nil_iff]
      intro a ha
      have := List.of_mem_filter ha
      simpa using this
    rw [hnil]
    simp
  · rw [recordObservation_fst]
    unfold histItemCount historyFor
    simp only
    have hk : histKeyCount s.priceHistory i t = 0 := by
      unfold histKeyCount
      rw [List.length_eq_zero, List.filter_eq_nil_iff]
      intro a ha hkm
      unfold keyMatches at hkm
      simp only [Bool.and_eq_true, beq_iff_eq] at hkm
      exact hnorow a ha (by simp [hkm.1])
    unfold insertOrIgnoreHistory
    simp only [hk, if_true]
    rw [List.filter_append, List.length_append]
    have hz : (s.priceHistory.filter (fun r => r.item == i)).length = 0 := h2
    rw [hz]
    simp

/-- Claim C4, witness: the first-observation theorem applied to the empty
store and a new item `A` at price 7. -/
theorem C4_witness :
    lastRowFor store0 "A" = none ∧ histItemCount store0 "A" = 0 ∧
    ((recordObservation store0 "A" 7 0).2 = none ∧
      lastItemCount (recordObservation store0 "A" 7 0).1 "A" = 1 ∧
      histItemCount (recordObservation store0 "A" 7 0).1 "A" = 1) :=
  ⟨rfl, rfl, C4_first_observation store0 "A" 7 0 rfl rfl⟩

/-- Claim C5: for every item whose fetch is unavailable (`none`) in a cycle,
both its `last_prices` row and all of its history rows are left completely
unchanged by that cycle, no matter what the other items do. -/
theorem C5_skip_on_unavailable (s : Store) (items : List String)
    (fetch : String → Option ℚ) (t : ℕ) (i : String) (h : fetch i = none) :
    lastFor (runCycle s items fetch t) i = lastFor s i ∧
    historyFor (runCycle s items fetch t) i = historyFor s i :=
  runCycle_frame items s fetch t i h

/-- Claim C5, witness: a cycle over items `A` and `B` in which `A` is
unavailable leaves the state of `A` untouched. -/
theorem C5_witness :
    fetchNoneA "A" = none ∧
    (lastFor (runCycle storeA10 ["A", "B"] fetchNoneA 0) "A" = lastFor storeA10 "A" ∧
      historyFor (runCycle storeA10 ["A", "B"] fetchNoneA 0) "A" = historyFor storeA10 "A") :=
  ⟨rfl, C5_skip_on_unavailable storeA10 ["A", "B"] fetchNoneA 0 "A" rfl⟩

/-- Claim C6, counterexample: the claim states that a negative fetched value
is treated like an unavailable fetch (discarded, nothing persisted).  The
source never sign-checks the parsed price: a response whose `lowest_price`
parses to -5 is returned as `some (-5)` and the cycle persists it into
`last_prices`. -/
theorem C6_counterexample :
    get_steam_market_price respNeg = some (-5) ∧
    lastFor (runCycle store0 ["A"] (fun _ => get_steam_market_price respNeg) 0) "A" =
      some (-5, 0) :=
  ⟨rfl, rfl⟩

/-- Claim C6, amended: a fetched value that is non-numeric (the float parse
raises), missing, or carried by an unsuccessful response is treated
identically to an unavailable fetch — `get_steam_market_price` returns `none`
and the cycle persists nothing; a successfully parsed negative numeric
value, however, is not discarded: it is returned and persisted like any
other price. -/
theorem C6_unparsable_like_unavailable (r : PriceResponse) (s : Store) (i : String) (t : ℕ)
    (h : r.success = false ∨ r.lowestPrice = none ∨ r.lowestPrice = some none) :
    get_steam_market_price r = none ∧
    runCycle s [i] (fun _ => get_steam_market_price r) t = s := by
  have hg : get_steam_market_price r = none := by
    unfold get_steam_market_price
    cases hs : r.success
    · simp
    · rcases h with h | h | h
      · rw [hs] at h; cases h
      · rw [h]; simp
      · rw [h]; simp
  exact ⟨hg, by simp [runCycle, hg]⟩

/-- Claim C6, witness: the amended theorem applied to a response whose
`lowest_price` does not parse. -/
theorem C6_witness :
    (respBad.success = false ∨ respBad.lowestPrice = none ∨
      respBad.lowestPrice = some none) ∧
    (get_steam_market_price respBad = none ∧
      runCycle storeA10 ["A"] (fun _ => get_steam_market_price respBad) 0 = storeA10) :=
  ⟨Or.inr (Or.inr rfl),
    C6_unparsable_like_unavailable respBad storeA10 "A" 0 (Or.inr (Or.inr rfl))⟩

/-- Claim C7, counterexample: the claim states that a storage failure during
the durable write is surfaced as a recoverable error and the cycle continues
with the next item.  In the source no handler sits between the SQLite calls
and the top level (`run` catches only `KeyboardInterrupt`), so a failure on
the first item aborts the cycle: with items `A` and `B` and the write for `A`
failing, the cycle ends in the aborted state and `B` is never recorded. -/
theorem C7_counterexample :
    (runCycleFallible store0 ["A", "B"] fetchOne failsA 0).2 = true ∧
    lastFor (runCycleFallible store0 ["A", "B"] fetchOne failsA 0).1 "B" = none :=
  ⟨rfl, rfl⟩

/-- Claim C7, amended: when the durable write for an item fails, the
exception propagates uncaught: the cycle aborts at that item instead of
continuing with the next one, ending the whole run; the failing item's
LastPrice and History are unchanged for that cycle (its writes were never
committed), and so is the state of every remaining item. -/
theorem C7_storage_failure_aborts (s : Store) (i : String) (rest : List String)
    (fetch : String → Option ℚ) (writeFails : String → Bool) (p : ℚ) (t : ℕ)
    (h1 : fetch i = some p) (h2 : writeFails i = true) :
    runCycleFallible s (i :: rest) fetch writeFails t = (s, true) := by
  unfold runCycleFallible
  rw [h1, h2]
  simp

/-- Claim C7, witness: the amended theorem applied to a cycle whose first
item's write fails. -/
theorem C7_witness :
    fetchOne "A" = some 1 ∧ failsA "A" = true ∧
    runCycleFallible storeA10 ["A", "B"] fetchOne failsA 0 = (storeA10, true) :=
  ⟨rfl, rfl, C7_storage_failure_aborts storeA10 "A" ["B"] fetchOne failsA 1 0 rfl rfl⟩

/-- Claim C8: after every successfully recorded observation, the
`last_prices` row of that item holds exactly the price and timestamp of that
(most recent) observation, whether or not it was reported as a change — the
`INSERT OR REPLACE` overwrites unconditionally. -/
theorem C8_lastprice_reflects_latest (s : Store) (i : String) (p : ℚ) (t : ℕ) :
    lastFor (recordObservation s i p t).1 i = some (p, t) :=
  lastFor_record_self s i p t

/-- Claim C9: the invariant that every item with a `last_prices` row has at
least one history row is preserved by every operation: by each
`recordObservation` and by each whole cycle. -/
theorem C9_covered_invariant (s : Store) (h : lastPriceCovered s) :
    (∀ i p t, lastPriceCovered (recordObservation s i p t).1) ∧
    (∀ items fetch t, lastPriceCovered (runCycle s items fetch t)) :=
  ⟨fun i p t => record_preserves_covered s i p t h,
    fun items fetch t => runCycle_preserves_covered items s fetch t h⟩

/-- Claim C9, witness: the invariant theorem applied to a concrete covered
store, one observation and one cycle. -/
theorem C9_witness :
    lastPriceCovered storeA10 ∧
    lastPriceCovered (recordObservation storeA10 "A" 12 1).1 ∧
    lastPriceCovered (runCycle storeA10 ["A", "B"] fetchNoneA 0) :=
  ⟨by decide, (C9_covered_invariant storeA10 (by decide)).1 "A" 12 1,
    (C9_covered_invariant storeA10 (by decide)).2 ["A", "B"] fetchNoneA 0⟩

/-- Claim C10: when a history row with key `(item, t)` already exists, a new
observation of that item at the same timestamp `t` leaves the whole history
unchanged (the insert is silently ignored) while `last_prices` is
nevertheless overwritten with the new price and timestamp — so with a
different price, the price stored in `last_prices` need not appear in any
history row of that item. -/
theorem C10_stale_history_fresh_lastprice (s : Store) (i : String) (p : ℚ) (t : ℕ)
    (h : histKeyCount s.priceHistory i t ≠ 0) :
    (recordObservation s i p t).1.priceHistory = s.priceHistory ∧
    lastFor (recordObservation s i p t).1 i = some (p, t) := by
  refine ⟨?_, lastFor_record_self s i p t⟩
  rw [recordObservation_fst]
  exact insertOrIgnore_of_existing _ _ h

/-- Claim C10, witness: item `A` already has the history row (10, timestamp
0); observing price 12 at the same timestamp keeps the history (which then
nowhere contains 12) and overwrites `last_prices` with 12. -/
theorem C10_witness :
    histKeyCount storeA10.priceHistory "A" 0 ≠ 0 ∧
    ((recordObservation storeA10 "A" 12 0).1.priceHistory = storeA10.priceHistory ∧
      lastFor (recordObservation storeA10 "A" 12 0).1 "A" = some (12, 0)) :=
  ⟨by decide, C10_stale_history_fresh_lastprice storeA10 "A" 12 0 (by decide)⟩
